import Mathlib

/-!
Verification of the audio-to-feature pipeline and session protocol of the
Speech-Emotion-Recognition backend (`app/backend/main.py`).

The embedding uses `List ℚ` for PCM buffers and probability vectors,
`List (List ℚ)` for log-mel matrices, and `List (List (List ℚ))` for the
final feature tensor (mel bands × frames × channel).  Sample rates are
natural numbers (they come from integer container metadata or the fixed
22050 Hz resample target).  Library calls that live outside the repository
(librosa, numpy reductions, PyAV, the Keras classifier) are modelled from
the spec where noted; everything else is translated directly from
`app/backend/main.py`.
-/

set_option maxHeartbeats 1000000

namespace SER

abbrev Mat := List (List ℚ)
abbrev Tensor := List (List (List ℚ))

/-- Constant `n_mels = 64`, the default of `extract_logmel_from_array` (both call
sites leave it at the default). -/
def N_MELS : Nat := 64

/-- Constant `max_frames = 129`, the default of `extract_logmel_from_array`. -/
def MAX_FRAMES : Nat := 129

/-- Constant `max_duration = 3.0` seconds.  For an integer sample rate `sr` the
float product `sr * 3.0` is exact, so the source's `int(sr * max_duration)`
and the spec's `round(sample_rate * 3.0)` both equal `3 * sr`. -/
def MAX_DURATION : Nat := 3

/-- librosa's default STFT hop length (512 samples), left at its default by
the source. -/
def HOP_LENGTH : Nat := 512

/-- librosa's default `n_fft` window size (2048 samples). -/
def N_FFT : Nat := 2048

/-- librosa's `power_to_db` default floor `amin = 1e-10`. -/
def AMIN : ℚ := 1 / 10 ^ 10

/-- The `1e-6` ε-guard added to the standard deviation in the
normalization step of `extract_logmel_from_array`. -/
def EPS : ℚ := 1 / 10 ^ 6

/-- Value `target_len = int(sr * max_duration)`; exact for integer `sr`. -/
def targetLen (sr : Nat) : Nat := MAX_DURATION * sr

/-- Lines 38–41 of `main.py`: right-pad with zeros to `t` samples when the
signal is shorter, otherwise keep only the first `t` samples
(`np.pad(y, (0, t - len(y)))` / `y[:t]`). -/
def padOrTrim (y : List ℚ) (t : Nat) : List ℚ :=
  if y.length < t then y ++ List.replicate (t - y.length) 0 else y.take t

/-- Modelled from the spec: the power contributed by the analysis frame
starting at hop `t` (spec §4.2 step 3 leaves windowing at the library
defaults; the model keeps the properties the spec relies on — the value
depends only on the samples of that frame and a silent frame has zero
power). -/
def framePower (y : List ℚ) (t : Nat) : ℚ :=
  (((y.drop (HOP_LENGTH * t)).take N_FFT).map (fun s => s * s)).sum

/-- Modelled from the spec: the mel-scale power spectrogram matrix of
`librosa.feature.melspectrogram` with default parameters — `nMels` rows and
`1 + ⌊len / 512⌋` frame columns (librosa's centred STFT frame count), each
entry a non-negatively weighted power of its analysis frame. -/
def melMat (y : List ℚ) (nMels : Nat) : Mat :=
  (List.range nMels).map fun (m : Nat) =>
    (List.range (1 + y.length / HOP_LENGTH)).map fun t =>
      framePower y t / ((m : ℚ) + 1)

/-- Modelled from the spec: `librosa.feature.melspectrogram` as a fallible
call — it raises on an empty buffer (spec §7: `FeatureExtractionError` —
numeric/shape failure, "e.g., empty buffer"); on a non-empty buffer it
returns `melMat`. -/
def melspectrogram (y : List ℚ) (nMels : Nat) : Except String Mat :=
  if y.isEmpty then .error "empty buffer" else .ok (melMat y nMels)

/-- Modelled from the spec: `librosa.power_to_db`, an entrywise monotone
log-scale ("decibel-like") map with floor `amin`; the verified claims
depend only on its being entrywise and on a zero-power matrix mapping to a
constant matrix, both of which hold of the real map. -/
def power_to_db (m : Mat) : Mat :=
  m.map fun r => r.map fun p => max p AMIN

/-- All entries of a matrix, row-major (`numpy` reductions run over the
whole matrix). -/
def entries (m : Mat) : List ℚ := m.flatten

/-- Value of `np.mean` over the whole matrix. -/
def npMean (m : Mat) : ℚ := (entries m).sum / ((entries m).length : ℚ)

/-- Value of `np.std` squared: the mean squared deviation (`ddof = 0`). -/
def npVariance (m : Mat) : ℚ :=
  ((entries m).map (fun x => (x - npMean m) ^ 2)).sum / ((entries m).length : ℚ)

/-- Modelled from the spec: the square root inside `np.std`, as the
rational floor-square-root approximation `√(a/b) ≈ ⌊√(a·b)⌋ / b`.  The
claims depend only on `ratSqrt q ≥ 0` and `ratSqrt 0 = 0`, both of which
hold of the real square root. -/
def ratSqrt (q : ℚ) : ℚ := (Nat.sqrt (q.num.toNat * q.den) : ℚ) / (q.den : ℚ)

/-- Value of `np.std` over the whole matrix. -/
def npStd (m : Mat) : ℚ := ratSqrt (npVariance m)

/-- Line 45 of `main.py`: per-tensor z-score normalization
`(logmel - np.mean(logmel)) / (np.std(logmel) + 1e-6)`. -/
def normalize (m : Mat) : Mat :=
  m.map fun r => r.map fun x => (x - npMean m) / (npStd m + EPS)

/-- The divisor used by the normalization step (`np.std(logmel) + 1e-6`);
named so that the ε-guard can be stated. -/
def normDivisor (m : Mat) : ℚ := npStd m + EPS

/-- Value of `logmel.shape[1]`: the frame count of the (rectangular) matrix. -/
def numCols (m : Mat) : Nat := (m.head?.getD []).length

/-- Lines 47–51 of `main.py`: zero-pad the frame axis to `MAX_FRAMES`
columns when there are fewer (`np.pad(logmel, ((0,0),(0,pad_width)))`),
otherwise keep the first `MAX_FRAMES` columns (`logmel[:, :max_frames]`). -/
def fixFrames (m : Mat) : Mat :=
  if numCols m < MAX_FRAMES then
    m.map fun r => r ++ List.replicate (MAX_FRAMES - numCols m) 0
  else
    m.map fun r => r.take MAX_FRAMES

/-- Line 53 of `main.py`: `np.expand_dims(logmel, -1)`, the trailing
singleton channel axis. -/
def expandDims (m : Mat) : Tensor := m.map fun r => r.map fun x => [x]

/-- The body of `extract_logmel_from_array` (lines 37–53 of `main.py`),
before the surrounding `try/except`: each fallible library call is threaded
through `Except`, mirroring a Python exception propagating out of the
statement that raised it. -/
def extractBody (y : List ℚ) (sr : Nat) : Except String Tensor := do
  let y2 := padOrTrim y (targetLen sr)
  let mel ← melspectrogram y2 N_MELS
  let logmel := power_to_db mel
  let logmel2 := normalize logmel
  return expandDims (fixFrames logmel2)

/-- Lines 35–56 of `main.py`: `extract_logmel_from_array` runs the body
under `try/except Exception`, returning `None` on any exception. -/
def extract_logmel_from_array (y : List ℚ) (sr : Nat) : Option Tensor :=
  match extractBody y sr with
  | .ok t => some t
  | .error _ => none

/-- The divisor the normalization step uses inside
`extract_logmel_from_array` on input `(y, sr)`. -/
def extractDivisor (y : List ℚ) (sr : Nat) : ℚ :=
  normDivisor (power_to_db (melMat (padOrTrim y (targetLen sr)) N_MELS))

/-- The tensor produced by the post-pad pipeline of
`extract_logmel_from_array` on the padded/truncated signal `y2` (the
success value of `extractBody`). -/
def pipelineTensor (y2 : List ℚ) : Tensor :=
  expandDims (fixFrames (normalize (power_to_db (melMat y2 N_MELS))))

/-- Predicate `hasShape t a b c` states that tensor `t` has exactly `a` rows, each of
exactly `b` columns, each cell a vector of exactly `c` channels. -/
def hasShape (t : Tensor) (a b c : Nat) : Prop :=
  t.length = a ∧ ∀ r ∈ t, r.length = b ∧ ∀ x ∈ r, x.length = c

instance (t : Tensor) (a b c : Nat) : Decidable (hasShape t a b c) := by
  unfold hasShape; infer_instance

/-! ## Inference adapter (lines 85–91 and 149–153 of `main.py`) -/

/-- Value of `np.max` over a probability vector (`float(np.max(pred))`). -/
def listMax : List ℚ → ℚ
  | [] => 0
  | x :: xs => xs.foldl max x

/-- Index `np.argmax`: the index of the first occurrence of the maximum value
(numpy's documented tie-break). -/
def npArgmax (l : List ℚ) : Nat := l.findIdx fun x => decide (x = listMax l)

/-- Python 3 `round` on an exact value: round half to even (banker's
rounding), otherwise to the nearest integer. -/
def pyRound (q : ℚ) : ℤ :=
  if q - ⌊q⌋ = 1 / 2 then (if ⌊q⌋ % 2 = 0 then ⌊q⌋ else ⌊q⌋ + 1) else round q

/-- Value `int(round(confidence * 100))` with `confidence = float(np.max(pred))`
(lines 87 and 151 of `main.py`; `int` is the identity on the integer that
Python's one-argument `round` already returns). -/
def confidenceOf (probs : List ℚ) : ℤ := pyRound (listMax probs * 100)

/-- A structured reply sent to the client: either an emotion/confidence
object or an error object. -/
inductive Reply where
  | prediction (emotion : String) (confidence : ℤ)
  | error (msg : String)
deriving DecidableEq, Repr

/-- Lines 85–91 (equally 149–158) of `main.py`: turn the classifier's
probability vector into a reply.  `np.argmax` raises on an empty vector and
`label_encoder.inverse_transform` raises on an index outside the
vocabulary; both propagate as exceptions (`Except.error`). -/
def predictionOf (probs : List ℚ) (labels : List String) : Except String Reply :=
  if probs.isEmpty then .error "attempt to get argmax of an empty sequence"
  else
    match labels.get? (npArgmax probs) with
    | none => .error "previously unseen labels"
    | some lab => .ok (.prediction lab (confidenceOf probs))

/-- The opaque classifier (`model.predict` on the batch-expanded tensor),
treated as an external collaborator: it may fail (`InferenceError`, e.g. a
shape mismatch) or return a probability vector. -/
abbrev Predictor := List Tensor → Except String (List ℚ)

/-! ## Streaming session (lines 107–168 of `main.py`) -/

/-- One received binary chunk, abstracted to what PyAV produces from it:
`none` when the chunk cannot be opened/decoded as a container (the
`av.open`/`container.decode` calls raise), otherwise the list of per-frame
flattened sample arrays together with the stream's declared sample rate. -/
structure Chunk where
  parsed : Option (List (List ℚ) × Nat)
deriving DecidableEq

/-- Lines 128–135 of `main.py`: the decode stage.  A chunk that parses to a
frame list is concatenated by `np.concatenate(audio_frames)`, which raises
when the frame list is empty; an unparsable chunk raises in
`av.open`/`decode`.  Both raises stay inside this stage's `try`. -/
def decodeChunk (c : Chunk) : Except String (List ℚ × Nat) :=
  match c.parsed with
  | none => .error "Invalid data found when processing input"
  | some (frames, rate) =>
    if frames.isEmpty then .error "need at least one array to concatenate"
    else .ok (frames.flatten, rate)

/-- Lines 125–158 of `main.py`: the body of one iteration of the websocket
loop, given one received chunk.  `Except.ok r` means the iteration sends
exactly the reply `r` and the loop continues; `Except.error e` means an
exception escaped the iteration (only the decode stage and the extraction
sentinel are handled inside the loop) and propagates to the outer handler,
which closes the connection. -/
def processChunk (P : Predictor) (labels : List String) (c : Chunk) :
    Except String Reply :=
  match decodeChunk c with
  | .error e => .ok (.error ("Decode error: " ++ e))
  | .ok (y, sr) =>
    match extract_logmel_from_array y sr with
    | none => .ok (.error "Feature extraction failed")
    | some feat =>
      match P [feat] with
      | .error e => .error e
      | .ok probs => predictionOf probs labels

/-- Lines 119–173 of `main.py`: the websocket session over a finite
sequence of received chunks.  Each chunk yields exactly one reply while
iterations end in `Except.ok`; the first escaping exception reaches the
outer `except`, which closes the websocket — no reply is sent for that
chunk and no later chunk is processed. -/
def runSession (P : Predictor) (labels : List String) : List Chunk → List Reply
  | [] => []
  | c :: cs =>
    match processChunk P labels c with
    | .ok r => r :: runSession P labels cs
    | .error _ => []

/-! ## Upload endpoint (lines 60–101 of `main.py`) -/

/-- A Python exception as seen by the upload handler's `except Exception`:
either a `fastapi.HTTPException` (which carries a status code) or any other
exception, reduced to its message. -/
inductive PyExn where
  | httpException (status : Nat) (detail : String)
  | other (msg : String)
deriving DecidableEq

/-- Message `str(e)` — starlette's `HTTPException.__str__` renders the
status code, a colon and a space, then the detail message. -/
def exnStr : PyExn → String
  | .httpException s d => toString s ++ ": " ++ d
  | .other m => m

/-- Lines 70–91 of `main.py`: the body of `predict_emotion` inside its
`try`.  The robust load `librosa.load(temp_path, sr=22050, duration=3.0)`
is an external call, taken as an input: `Except.error` when it raises on
undecodable bytes, `Except.ok (y, sr)` otherwise.  An extraction sentinel
(`feat is None`) raises `HTTPException(status_code=500, ...)` from inside
the `try`. -/
def uploadBody (P : Predictor) (labels : List String)
    (loaded : Except String (List ℚ × Nat)) : Except PyExn Reply :=
  match loaded with
  | .error e => .error (.other e)
  | .ok (y, sr) =>
    match extract_logmel_from_array y sr with
    | none => .error (.httpException 500 "Failed to extract features from audio.")
    | some feat =>
      match P [feat] with
      | .error e => .error (.other e)
      | .ok probs => (predictionOf probs labels).mapError .other

/-- The observable outcome of one upload request: a 200 reply or an HTTP
error with a status code and detail message. -/
inductive UploadOutcome where
  | ok (r : Reply)
  | httpError (status : Nat) (detail : String)
deriving DecidableEq

/-- Lines 60–94 of `main.py`: `predict_emotion`.  Any exception from the
body — including the internally raised 500 `HTTPException`, since
`HTTPException` subclasses `Exception` — is caught by `except Exception`
and re-raised as a 422 `HTTPException` whose detail prefixes the
stringified exception with "Cannot process audio: ". -/
def predict_emotion (P : Predictor) (labels : List String)
    (loaded : Except String (List ℚ × Nat)) : UploadOutcome :=
  match uploadBody P labels loaded with
  | .ok r => .ok r
  | .error e => .httpError 422 ("Cannot process audio: " ++ exnStr e)

/-! ## Helper lemmas -/

lemma padOrTrim_length (y : List ℚ) (t : Nat) : (padOrTrim y t).length = t := by
  unfold padOrTrim
  split
  · simp only [List.length_append, List.length_replicate]
    omega
  · simp only [List.length_take]
    omega

lemma melMat_length (y : List ℚ) (n : Nat) : (melMat y n).length = n := by
  unfold melMat
  rw [List.length_map, List.length_range]

lemma melMat_row_length {y : List ℚ} {n : Nat} {r : List ℚ} (h : r ∈ melMat y n) :
    r.length = 1 + y.length / HOP_LENGTH := by
  unfold melMat at h
  obtain ⟨m, _, rfl⟩ := List.mem_map.1 h
  simp

lemma row_length_entrywise {f : ℚ → ℚ} {m : Mat} {r : List ℚ}
    (h : r ∈ m.map fun s => s.map f) : ∃ s ∈ m, r.length = s.length := by
  obtain ⟨s, hs, rfl⟩ := List.mem_map.1 h
  exact ⟨s, hs, by simp⟩

lemma numCols_eq {m : Mat} (hne : m ≠ []) {F : Nat} (h : ∀ r ∈ m, r.length = F) :
    numCols m = F := by
  unfold numCols
  cases m with
  | nil => exact absurd rfl hne
  | cons a l => simpa using h a (by simp)

lemma fixFrames_length (m : Mat) : (fixFrames m).length = m.length := by
  unfold fixFrames
  split <;> simp

lemma fixFrames_row_length {m : Mat} (h : ∀ r ∈ m, r.length = numCols m) :
    ∀ r ∈ fixFrames m, r.length = MAX_FRAMES := by
  intro r hr
  unfold fixFrames at hr
  split at hr
  next hlt =>
    obtain ⟨s, hs, rfl⟩ := List.mem_map.1 hr
    simp only [List.length_append, List.length_replicate, h s hs]
    omega
  next hge =>
    obtain ⟨s, hs, rfl⟩ := List.mem_map.1 hr
    simp only [List.length_take, h s hs]
    omega

lemma expandDims_length (m : Mat) : (expandDims m).length = m.length := by
  simp [expandDims]

lemma expandDims_shape {m : Mat} {B : Nat} (hrow : ∀ r ∈ m, r.length = B) :
    ∀ r ∈ expandDims m, r.length = B ∧ ∀ x ∈ r, x.length = 1 := by
  intro r hr
  obtain ⟨s, hs, rfl⟩ := List.mem_map.1 hr
  refine ⟨by simp [hrow s hs], ?_⟩
  intro x hx
  obtain ⟨v, _, rfl⟩ := List.mem_map.1 hx
  rfl

lemma pipeline_shape (y2 : List ℚ) : hasShape (pipelineTensor y2) N_MELS MAX_FRAMES 1 := by
  set F := 1 + y2.length / HOP_LENGTH with hF
  have h0 : ∀ r ∈ melMat y2 N_MELS, r.length = F := fun r hr => melMat_row_length hr
  have h1 : ∀ r ∈ power_to_db (melMat y2 N_MELS), r.length = F := by
    intro r hr
    obtain ⟨s, hs, hlen⟩ := row_length_entrywise hr
    rw [hlen]; exact h0 s hs
  have h2 : ∀ r ∈ normalize (power_to_db (melMat y2 N_MELS)), r.length = F := by
    intro r hr
    obtain ⟨s, hs, hlen⟩ := row_length_entrywise hr
    rw [hlen]; exact h1 s hs
  have hlen2 : (normalize (power_to_db (melMat y2 N_MELS))).length = N_MELS := by
    simp [normalize, power_to_db, melMat_length]
  have hne : normalize (power_to_db (melMat y2 N_MELS)) ≠ [] := by
    intro hnil
    rw [hnil] at hlen2
    simp [N_MELS] at hlen2
  have hcols : numCols (normalize (power_to_db (melMat y2 N_MELS))) = F :=
    numCols_eq hne h2
  have h3 : ∀ r ∈ normalize (power_to_db (melMat y2 N_MELS)),
      r.length = numCols (normalize (power_to_db (melMat y2 N_MELS))) := by
    intro r hr
    rw [hcols]; exact h2 r hr
  have h4 : ∀ r ∈ fixFrames (normalize (power_to_db (melMat y2 N_MELS))),
      r.length = MAX_FRAMES := fixFrames_row_length h3
  refine ⟨?_, expandDims_shape h4⟩
  rw [pipelineTensor, expandDims_length, fixFrames_length, hlen2]

lemma extract_eq_of_pos {y : List ℚ} {sr : Nat} (h : 0 < sr) :
    extract_logmel_from_array y sr = some (pipelineTensor (padOrTrim y (targetLen sr))) := by
  have hlen : (padOrTrim y (targetLen sr)).length = targetLen sr := padOrTrim_length y _
  have hne : (padOrTrim y (targetLen sr)).isEmpty = false := by
    rw [List.isEmpty_eq_false]
    intro hnil
    rw [hnil] at hlen
    simp only [List.length_nil, targetLen, MAX_DURATION] at hlen
    omega
  simp [extract_logmel_from_array, extractBody, melspectrogram, hne, pipelineTensor]

/-! ## Claim theorems: feature extraction -/

/-- Claim C1: for every PCM input and positive sample rate, whenever
`extract_logmel_from_array` succeeds the returned tensor has shape exactly
(64, 129, 1) — 64 mel bands, a frame axis fixed to 129 frames, and a
trailing singleton channel axis — regardless of input length or rate. -/
theorem C1_feature_tensor_shape (y : List ℚ) (sr : Nat) (t : Tensor)
    (hsr : 0 < sr) (h : extract_logmel_from_array y sr = some t) :
    hasShape t 64 129 1 := by
  rw [extract_eq_of_pos hsr] at h
  injection h with h
  rw [← h]
  exact pipeline_shape _

/-- Witness for C1 at the empty input and sample rate 1. -/
theorem C1_feature_tensor_shape_witness :
    0 < 1 ∧ hasShape (pipelineTensor (padOrTrim [] (targetLen 1))) 64 129 1 :=
  ⟨Nat.one_pos,
    C1_feature_tensor_shape [] 1 _ Nat.one_pos (extract_eq_of_pos Nat.one_pos)⟩

/-- Claim C3: feature extraction computes `target_len` (which equals
3·sr, the value of both `int(sr * 3.0)` and `round(sr * 3.0)` for an
integer rate), right-pads shorter inputs with zeros to exactly
`target_len`, truncates longer-or-equal inputs to the first `target_len`
samples, and the signal entering the spectrogram transform always has
length exactly `target_len`. -/
theorem C3_pad_truncate (y : List ℚ) (sr : Nat) :
    targetLen sr = MAX_DURATION * sr ∧
    (padOrTrim y (targetLen sr)).length = targetLen sr ∧
    (y.length < targetLen sr →
      padOrTrim y (targetLen sr) = y ++ List.replicate (targetLen sr - y.length) 0) ∧
    (targetLen sr ≤ y.length →
      padOrTrim y (targetLen sr) = y.take (targetLen sr)) := by
  refine ⟨rfl, padOrTrim_length y _, ?_, ?_⟩
  · intro h
    unfold padOrTrim
    rw [if_pos h]
  · intro h
    unfold padOrTrim
    rw [if_neg (by omega)]

/-- Witness for C3: a 2-sample signal at rate 1 is padded to 3 samples. -/
theorem C3_pad_truncate_witness :
    ([(1 : ℚ), 2].length < targetLen 1) ∧
    padOrTrim [(1 : ℚ), 2] (targetLen 1) =
      [(1 : ℚ), 2] ++ List.replicate (targetLen 1 - [(1 : ℚ), 2].length) 0 :=
  ⟨by decide, (C3_pad_truncate [(1 : ℚ), 2] 1).2.2.1 (by decide)⟩

/-- Claim C7: for inputs with at least `target_len` samples, the feature
tensor equals the one extracted from only the first `target_len` samples —
audio beyond the first 3 seconds never influences the result. -/
theorem C7_only_first_three_seconds (y : List ℚ) (sr : Nat)
    (h : targetLen sr ≤ y.length) :
    extract_logmel_from_array y sr =
      extract_logmel_from_array (y.take (targetLen sr)) sr := by
  have hlen : (y.take (targetLen sr)).length = targetLen sr := by
    simp only [List.length_take]
    omega
  have key : padOrTrim (y.take (targetLen sr)) (targetLen sr) = padOrTrim y (targetLen sr) := by
    unfold padOrTrim
    rw [if_neg (by omega), if_neg (by omega), List.take_take, Nat.min_self]
  unfold extract_logmel_from_array extractBody
  rw [key]

/-- Witness for C7 at a 4-sample input and rate 1 (`target_len = 3`). -/
theorem C7_only_first_three_seconds_witness :
    targetLen 1 ≤ [(1 : ℚ), 2, 3, 4].length ∧
    extract_logmel_from_array [(1 : ℚ), 2, 3, 4] 1 =
      extract_logmel_from_array ([(1 : ℚ), 2, 3, 4].take (targetLen 1)) 1 :=
  ⟨by decide, C7_only_first_three_seconds [(1 : ℚ), 2, 3, 4] 1 (by decide)⟩

/-! ## Silent input: the ε-guard -/

lemma padOrTrim_replicate_zero (n t : Nat) :
    padOrTrim (List.replicate n (0 : ℚ)) t = List.replicate t 0 := by
  unfold padOrTrim
  split
  next h =>
    simp only [List.length_replicate] at h ⊢
    rw [List.append_replicate_replicate]
    congr 1
    omega
  next h =>
    simp only [List.length_replicate] at h
    refine List.eq_replicate_iff.mpr ⟨?_, ?_⟩
    · simp only [List.length_take, List.length_replicate]
      omega
    · intro b hb
      exact List.eq_of_mem_replicate (List.take_subset _ _ hb)

lemma framePower_replicate_zero (t k : Nat) :
    framePower (List.replicate t (0 : ℚ)) k = 0 := by
  unfold framePower
  have h : ∀ x ∈ (((List.replicate t (0 : ℚ)).drop (HOP_LENGTH * k)).take N_FFT).map
      (fun s => s * s), x = 0 := by
    intro x hx
    obtain ⟨s, hs, rfl⟩ := List.mem_map.1 hx
    have hs2 : s ∈ List.replicate t (0 : ℚ) :=
      List.drop_subset _ _ (List.take_subset _ _ hs)
    rw [List.eq_of_mem_replicate hs2, mul_zero]
  rw [List.sum_eq_card_nsmul _ 0 h, smul_zero]

lemma silent_entries {t n : Nat} :
    ∀ x ∈ entries (power_to_db (melMat (List.replicate t (0 : ℚ)) n)), x = AMIN := by
  intro x hx
  unfold entries at hx
  obtain ⟨r, hr, hxr⟩ := List.mem_flatten.1 hx
  unfold power_to_db at hr
  obtain ⟨s, hs, rfl⟩ := List.mem_map.1 hr
  obtain ⟨v, hv, rfl⟩ := List.mem_map.1 hxr
  unfold melMat at hs
  obtain ⟨m, _, rfl⟩ := List.mem_map.1 hs
  obtain ⟨k, _, rfl⟩ := List.mem_map.1 hv
  rw [framePower_replicate_zero, zero_div]
  exact max_eq_right (by norm_num [AMIN])

lemma power_to_db_melMat_length (y : List ℚ) (n : Nat) :
    (power_to_db (melMat y n)).length = n := by
  unfold power_to_db
  rw [List.length_map, melMat_length]

lemma power_to_db_melMat_row_length {y : List ℚ} {n : Nat} {r : List ℚ}
    (hr : r ∈ power_to_db (melMat y n)) :
    r.length = 1 + y.length / HOP_LENGTH := by
  unfold power_to_db at hr
  obtain ⟨s, hs, hl⟩ := row_length_entrywise hr
  rw [hl]
  exact melMat_row_length hs

lemma silent_entries_ne_nil {t n : Nat} (hn : 0 < n) :
    entries (power_to_db (melMat (List.replicate t (0 : ℚ)) n)) ≠ [] := by
  unfold entries
  rw [Ne, List.flatten_eq_nil_iff]
  intro hall
  have hMne : power_to_db (melMat (List.replicate t (0 : ℚ)) n) ≠ [] := by
    intro h0
    have := power_to_db_melMat_length (List.replicate t (0 : ℚ)) n
    rw [h0] at this
    simp only [List.length_nil] at this
    omega
  have hhead := List.head_mem hMne
  have hlen := power_to_db_melMat_row_length hhead
  rw [hall _ hhead] at hlen
  simp only [List.length_nil, List.length_replicate] at hlen
  generalize t / HOP_LENGTH = k at hlen
  omega

lemma npMean_const {m : Mat} {c : ℚ} (h : ∀ x ∈ entries m, x = c)
    (hne : entries m ≠ []) : npMean m = c := by
  unfold npMean
  rw [List.sum_eq_card_nsmul _ c h, nsmul_eq_mul]
  have hlen : ((entries m).length : ℚ) ≠ 0 := by
    rw [Nat.cast_ne_zero]
    intro h0
    exact hne (List.length_eq_zero.1 h0)
  exact mul_div_cancel_left₀ c hlen

lemma npVariance_const {m : Mat} {c : ℚ} (h : ∀ x ∈ entries m, x = c)
    (hne : entries m ≠ []) : npVariance m = 0 := by
  unfold npVariance
  have hz : ∀ x ∈ (entries m).map (fun x => (x - npMean m) ^ 2), x = 0 := by
    intro x hx
    obtain ⟨v, hv, rfl⟩ := List.mem_map.1 hx
    rw [h v hv, npMean_const h hne, sub_self]
    simp
  rw [List.sum_eq_card_nsmul _ 0 hz, smul_zero, zero_div]

lemma ratSqrt_zero : ratSqrt 0 = 0 := by simp [ratSqrt]

/-- Claim C8: normalization divides by `std + 1e-6` over the whole matrix,
so for a fully silent (all-zero) PCM input — whose log-mel matrix is
constant with standard deviation 0 — the divisor is the nonzero `1e-6`
(no division-by-zero fault) and extraction still returns a tensor of shape
(64, 129, 1). -/
theorem C8_silent_epsilon_guard (n sr : Nat) (hsr : 0 < sr) :
    extractDivisor (List.replicate n 0) sr = EPS ∧ EPS ≠ 0 ∧
    ∃ t, extract_logmel_from_array (List.replicate n 0) sr = some t ∧
      hasShape t 64 129 1 := by
  refine ⟨?_, by norm_num [EPS], ?_⟩
  · unfold extractDivisor normDivisor npStd
    rw [padOrTrim_replicate_zero n (targetLen sr),
      npVariance_const silent_entries (silent_entries_ne_nil (by norm_num [N_MELS])),
      ratSqrt_zero, zero_add]
  · exact ⟨_, extract_eq_of_pos hsr, pipeline_shape _⟩

/-- Witness for C8: a 4-sample silent clip at rate 1. -/
theorem C8_silent_epsilon_guard_witness :
    0 < 1 ∧ extractDivisor (List.replicate 4 0) 1 = EPS :=
  ⟨Nat.one_pos, (C8_silent_epsilon_guard 4 1 Nat.one_pos).1⟩

/-- Claim C6: `extract_logmel_from_array` never propagates an exception:
whenever its body raises, the function returns the `none` sentinel, and
whenever the body succeeds, the tensor is passed through unchanged. -/
theorem C6_exceptions_caught (y : List ℚ) (sr : Nat) :
    (∀ e, extractBody y sr = .error e → extract_logmel_from_array y sr = none) ∧
    (∀ t, extractBody y sr = .ok t → extract_logmel_from_array y sr = some t) := by
  constructor
  · intro e he
    unfold extract_logmel_from_array
    rw [he]
  · intro t ht
    unfold extract_logmel_from_array
    rw [ht]

/-- Witness for C6: the empty buffer at rate 0 makes the body raise, and
the function returns `none`. -/
theorem C6_exceptions_caught_witness :
    extractBody [] 0 = .error "empty buffer" ∧
    extract_logmel_from_array [] 0 = none :=
  ⟨rfl, (C6_exceptions_caught [] 0).1 "empty buffer" rfl⟩

/-! ## Argmax and confidence -/

lemma foldl_max_mem (xs : List ℚ) (a : ℚ) : xs.foldl max a ∈ a :: xs := by
  induction xs generalizing a with
  | nil => simp
  | cons b xs ih =>
    simp only [List.foldl_cons]
    have h := ih (max a b)
    rcases List.mem_cons.1 h with h | h
    · rcases max_choice a b with h2 | h2
      · rw [h, h2]; simp
      · rw [h, h2]; simp
    · simp [h]

lemma listMax_mem {l : List ℚ} (h : l ≠ []) : listMax l ∈ l := by
  cases l with
  | nil => exact absurd rfl h
  | cons y ys => exact foldl_max_mem ys y

lemma le_foldl_max_init (xs : List ℚ) (a : ℚ) : a ≤ xs.foldl max a := by
  induction xs generalizing a with
  | nil => simp
  | cons b xs ih =>
    simp only [List.foldl_cons]
    exact le_trans (le_max_left a b) (ih (max a b))

lemma le_foldl_max_mem {xs : List ℚ} {x : ℚ} (hx : x ∈ xs) (a : ℚ) :
    x ≤ xs.foldl max a := by
  induction xs generalizing a with
  | nil => cases hx
  | cons b xs ih =>
    simp only [List.foldl_cons]
    rcases List.mem_cons.1 hx with rfl | h
    · exact le_trans (le_max_right a x) (le_foldl_max_init xs _)
    · exact ih h _

lemma le_listMax {l : List ℚ} {x : ℚ} (hx : x ∈ l) : x ≤ listMax l := by
  cases l with
  | nil => cases hx
  | cons y ys =>
    rcases List.mem_cons.1 hx with rfl | h
    · exact le_foldl_max_init ys x
    · exact le_foldl_max_mem h y

lemma getD_eq_of_lt {l : List ℚ} {j : Nat} (h : j < l.length) :
    l.getD j 0 = l.get ⟨j, h⟩ := by
  rw [List.getD_eq_getElem?_getD, List.getElem?_eq_getElem h, Option.getD_some,
    List.get_eq_getElem]

lemma npArgmax_lt_length {l : List ℚ} (h : l ≠ []) : npArgmax l < l.length := by
  unfold npArgmax
  exact List.findIdx_lt_length_of_exists ⟨listMax l, listMax_mem h, by simp⟩

lemma npArgmax_getD {l : List ℚ} (h : l ≠ []) :
    l.getD (npArgmax l) 0 = listMax l := by
  have hlt : l.findIdx (fun x => decide (x = listMax l)) < l.length := npArgmax_lt_length h
  show l.getD (l.findIdx fun x => decide (x = listMax l)) 0 = listMax l
  rw [getD_eq_of_lt hlt, List.get_eq_getElem]
  exact of_decide_eq_true (List.findIdx_getElem (w := hlt))

lemma npArgmax_not_before {l : List ℚ} {j : Nat} (hj : j < npArgmax l) :
    l.getD j 0 ≠ listMax l := by
  have hj' : j < l.findIdx fun x => decide (x = listMax l) := hj
  have hlen : j < l.length := Nat.lt_of_lt_of_le hj' (List.findIdx_le_length _)
  have hfalse := List.not_of_lt_findIdx hj'
  rw [getD_eq_of_lt hlen, List.get_eq_getElem]
  intro heq
  rw [decide_eq_false_iff_not] at hfalse
  exact hfalse heq

/-- Claim C5: the predicted class index is the argmax with ties broken by
the lowest index — the argmax index is in range, attains the maximum, every
strictly earlier index holds a strictly smaller value, and the reply's
label is the vocabulary entry at that index. -/
theorem C5_argmax_lowest_index (probs : List ℚ) (h : probs ≠ []) :
    npArgmax probs < probs.length ∧
    probs.getD (npArgmax probs) 0 = listMax probs ∧
    (∀ j, j < npArgmax probs → probs.getD j 0 < listMax probs) ∧
    (∀ (labels : List String) (lab : String) (conf : ℤ),
      predictionOf probs labels = .ok (.prediction lab conf) →
        labels.get? (npArgmax probs) = some lab) := by
  refine ⟨npArgmax_lt_length h, npArgmax_getD h, ?_, ?_⟩
  · intro j hj
    have hjlen : j < probs.length :=
      Nat.lt_trans hj (npArgmax_lt_length h)
    have hmem : probs.getD j 0 ∈ probs := by
      rw [getD_eq_of_lt hjlen]
      exact List.get_mem probs j hjlen
    exact lt_of_le_of_ne (le_listMax hmem) (npArgmax_not_before hj)
  · intro labels lab conf hpred
    unfold predictionOf at hpred
    rw [if_neg (by simp [h])] at hpred
    cases hget : labels.get? (npArgmax probs) with
    | none => rw [hget] at hpred; cases hpred
    | some lab2 =>
      rw [hget] at hpred
      injection hpred with hpred
      injection hpred with h1 h2
      rw [h1]

/-- Witness for C5 at the tied vector `[1, 1]`: the lower index wins. -/
theorem C5_argmax_lowest_index_witness :
    [(1 : ℚ), 1] ≠ [] ∧ npArgmax [(1 : ℚ), 1] < [(1 : ℚ), 1].length ∧
    [(1 : ℚ), 1].getD (npArgmax [(1 : ℚ), 1]) 0 = listMax [(1 : ℚ), 1] :=
  ⟨by simp, (C5_argmax_lowest_index [(1 : ℚ), 1] (by simp)).1,
    (C5_argmax_lowest_index [(1 : ℚ), 1] (by simp)).2.1⟩

lemma pyRound_nonneg {q : ℚ} (h : 0 ≤ q) : 0 ≤ pyRound q := by
  unfold pyRound
  have hfl : (0 : ℤ) ≤ ⌊q⌋ := Int.le_floor.2 (by exact_mod_cast h)
  split
  · split
    · exact hfl
    · omega
  · rw [round_eq]
    exact Int.le_floor.2 (by push_cast; linarith)

lemma pyRound_le {q : ℚ} {B : ℤ} (h : q ≤ B) : pyRound q ≤ B := by
  unfold pyRound
  have hfl : ⌊q⌋ ≤ B := by
    have := Int.floor_le_floor h
    rwa [Int.floor_intCast] at this
  split
  next hhalf =>
    split
    · exact hfl
    · by_contra hcon
      push_neg at hcon
      have hBfl : ⌊q⌋ = B := by omega
      rw [hBfl] at hhalf
      have : q = (B : ℚ) + 1 / 2 := by linarith
      rw [this] at h
      norm_num at h
  next =>
    rw [round_eq]
    have h1 : ⌊q + 1 / 2⌋ ≤ ⌊(B : ℚ) + 1 / 2⌋ := Int.floor_le_floor (by linarith)
    have h2 : ⌊(B : ℚ) + 1 / 2⌋ = B := by
      rw [add_comm, Int.floor_add_int]
      norm_num
    omega

lemma pyRound_intCast (n : ℤ) : pyRound (n : ℚ) = n := by
  unfold pyRound
  rw [Int.floor_intCast, if_neg (by norm_num), round_intCast]

/-- Claim C4 counterexample: there is no clamp — on a (non-probability)
vector with an entry above 1, the reported confidence exceeds 100. -/
theorem C4_no_clamp_counterexample :
    predictionOf [2] ["happy"] = .ok (.prediction "happy" 200) ∧
    ¬ confidenceOf [2] ≤ 100 := by
  have hmax : listMax [(2 : ℚ)] = 2 := rfl
  have hconf : confidenceOf [2] = 200 := by
    unfold confidenceOf
    rw [hmax, show (2 : ℚ) * 100 = ((200 : ℤ) : ℚ) by norm_num, pyRound_intCast]
  constructor
  · have hidx : npArgmax [(2 : ℚ)] = 0 := by
      unfold npArgmax
      rw [List.findIdx_cons, hmax]
      simp
    unfold predictionOf
    rw [if_neg (by simp), hidx, hconf]
    rfl
  · rw [hconf]
    norm_num

/-- Claim C4 (amended): the confidence equals `round(max(probabilities) *
100)` with no clamp applied; nonetheless, for every probability vector with
all entries in [0, 1] it is an integer in [0, 100]. -/
theorem C4_confidence_bounds (probs : List ℚ) (h : probs ≠ [])
    (hp : ∀ p ∈ probs, 0 ≤ p ∧ p ≤ 1) :
    confidenceOf probs = pyRound (listMax probs * 100) ∧
    0 ≤ confidenceOf probs ∧ confidenceOf probs ≤ 100 := by
  obtain ⟨h0, h1⟩ := hp _ (listMax_mem h)
  refine ⟨rfl, ?_, ?_⟩
  · exact pyRound_nonneg (by nlinarith)
  · exact pyRound_le (B := 100) (by push_cast; nlinarith)

/-- Witness for C4 at the one-hot vector `[0, 1]`: confidence is 100. -/
theorem C4_confidence_bounds_witness :
    ([(0 : ℚ), 1] ≠ []) ∧ (∀ p ∈ [(0 : ℚ), 1], 0 ≤ p ∧ p ≤ 1) ∧
    0 ≤ confidenceOf [(0 : ℚ), 1] ∧ confidenceOf [(0 : ℚ), 1] ≤ 100 :=
  ⟨by simp, by norm_num,
    (C4_confidence_bounds [(0 : ℚ), 1] (by simp) (by norm_num)).2.1,
    (C4_confidence_bounds [(0 : ℚ), 1] (by simp) (by norm_num)).2.2⟩

/-! ## Streaming session and upload endpoint -/

/-- Claim C2 counterexample: an inference (classifier) failure terminates
the receive loop — with a classifier that raises on every call, a session
fed two decodable chunks sends zero replies (neither the failing chunk nor
the following chunk is answered), contradicting "exactly one structured
reply per chunk" and "inference failure leaves the connection open". -/
theorem C2_inference_failure_fatal_counterexample :
    processChunk (fun _ => .error "shape mismatch") ["calm"]
      ⟨some ([[0, 0, 0]], 1)⟩ = .error "shape mismatch" ∧
    runSession (fun _ => .error "shape mismatch") ["calm"]
      [⟨some ([[0, 0, 0]], 1)⟩, ⟨some ([[0, 0, 0]], 1)⟩] = [] := by
  have hdec : decodeChunk ⟨some ([[0, 0, 0]], 1)⟩ = .ok ([0, 0, 0], 1) := rfl
  have hext := @extract_eq_of_pos [0, 0, 0] 1 Nat.one_pos
  have hproc : processChunk (fun _ => .error "shape mismatch") ["calm"]
      ⟨some ([[0, 0, 0]], 1)⟩ = .error "shape mismatch" := by
    simp [processChunk, hdec, hext]
  exact ⟨hproc, by simp [runSession, hproc]⟩

/-- Claim C2 (amended): every loop iteration whose stages all stay inside
the handled region sends exactly one reply and the loop continues; decode
failures and feature-extraction failures are always handled this way; but
an exception escaping an iteration — in particular an inference failure —
ends the session with no reply for that chunk and no further processing. -/
theorem C2_streaming_loop (P : Predictor) (labels : List String) :
    (∀ c cs r, processChunk P labels c = .ok r →
      runSession P labels (c :: cs) = r :: runSession P labels cs) ∧
    (∀ c cs e, processChunk P labels c = .error e →
      runSession P labels (c :: cs) = []) ∧
    (∀ c e, decodeChunk c = .error e →
      processChunk P labels c = .ok (.error ("Decode error: " ++ e))) ∧
    (∀ c y sr, decodeChunk c = .ok (y, sr) →
      extract_logmel_from_array y sr = none →
      processChunk P labels c = .ok (.error "Feature extraction failed")) := by
  refine ⟨?_, ?_, ?_, ?_⟩
  · intro c cs r h
    simp [runSession, h]
  · intro c cs e h
    simp [runSession, h]
  · intro c e h
    simp [processChunk, h]
  · intro c y sr h1 h2
    simp [processChunk, h1, h2]

/-- Witness for C2 (amended): an unparsable chunk yields exactly one decode
error reply and the loop continues. -/
theorem C2_streaming_loop_witness :
    processChunk (fun _ => .ok [1]) ["calm"] ⟨none⟩ =
      .ok (.error "Decode error: Invalid data found when processing input") ∧
    runSession (fun _ => .ok [1]) ["calm"] [⟨none⟩] =
      [.error "Decode error: Invalid data found when processing input"] := by
  have happ := (C2_streaming_loop (fun _ => .ok [1]) ["calm"]).1 ⟨none⟩ []
    (.error "Decode error: Invalid data found when processing input") rfl
  exact ⟨rfl, by rw [happ]; rfl⟩

/-- Claim C10: a chunk that parses as a container but decodes to zero audio
frames makes `np.concatenate` raise inside the decode stage's `try`, so the
client receives a decode-error reply (never a feature-extraction failure),
the loop continues with the next chunk, and no fault escapes. -/
theorem C10_zero_frames_decode_error (P : Predictor) (labels : List String)
    (rate : Nat) (cs : List Chunk) :
    decodeChunk ⟨some ([], rate)⟩ =
      .error "need at least one array to concatenate" ∧
    processChunk P labels ⟨some ([], rate)⟩ =
      .ok (.error "Decode error: need at least one array to concatenate") ∧
    runSession P labels (⟨some ([], rate)⟩ :: cs) =
      .error "Decode error: need at least one array to concatenate"
        :: runSession P labels cs ∧
    "Decode error: need at least one array to concatenate" ≠
      "Feature extraction failed" := by
  have hdec : decodeChunk ⟨some ([], rate)⟩ =
      .error "need at least one array to concatenate" := rfl
  have hproc : processChunk P labels ⟨some ([], rate)⟩ =
      .ok (.error "Decode error: need at least one array to concatenate") := by
    simp [processChunk, hdec]
  refine ⟨hdec, hproc, by simp [runSession, hproc], by decide⟩

/-- Claim C9: every failing upload request produces the 422 client-error
outcome (never another status and never an unhandled fault), and the
internally raised 500 extraction failure is converted into the 422 response
carrying its stringified message. -/
theorem C9_upload_client_error (P : Predictor) (labels : List String)
    (loaded : Except String (List ℚ × Nat)) :
    (∀ s d, predict_emotion P labels loaded = .httpError s d → s = 422) ∧
    (∀ y sr, loaded = .ok (y, sr) →
      extract_logmel_from_array y sr = none →
      predict_emotion P labels loaded = .httpError 422
        "Cannot process audio: 500: Failed to extract features from audio.") := by
  constructor
  · intro s d h
    unfold predict_emotion at h
    cases hb : uploadBody P labels loaded with
    | ok r => rw [hb] at h; cases h
    | error e =>
      rw [hb] at h
      injection h with h1 h2
      exact h1.symm
  · intro y sr hl hext
    subst hl
    have hb : uploadBody P labels (.ok (y, sr)) =
        .error (.httpException 500 "Failed to extract features from audio.") := by
      simp [uploadBody, hext]
    unfold predict_emotion
    rw [hb]
    rfl

/-- Witness for C9: an input whose extraction fails (empty buffer, rate 0)
is answered with the 422 conversion of the internal 500. -/
theorem C9_upload_client_error_witness :
    extract_logmel_from_array [] 0 = none ∧
    predict_emotion (fun _ => .ok [1]) ["sad"] (.ok ([], 0)) = .httpError 422
      "Cannot process audio: 500: Failed to extract features from audio." :=
  ⟨rfl, (C9_upload_client_error (fun _ => .ok [1]) ["sad"] (.ok ([], 0))).2 [] 0 rfl rfl⟩

end SER
